import Mathlib

/-!
Shallow embedding of the `task4` deposit/withdraw ledger program
(`src/task4/src/processor.rs`, `src/task4/src/instruction.rs`).

Machine integers are modelled as `Nat` with an explicit `% 2 ^ 64` where the
Rust `u64` arithmetic can wrap (release builds compile unchecked `+=` to a
wrapping add).  Byte buffers are `List Nat` of byte values; borsh
serialization of `DepositAccount { owner : Pubkey, balance : u64 }` is the 32
raw owner bytes followed by the 8-byte little-endian balance.  Fallible Rust
paths are modelled with `Except`: a returned error means the host discards
every attempted write, so an `Except.error` result carries no state.
-/

namespace Task4

/-- Modulus of the Rust `u64` type. -/
def U64MOD : Nat := 2 ^ 64

/-- Little-endian byte string of length `k` for the value `n` (borsh layout of
fixed-width integers and of the 32 raw bytes of a `Pubkey`). -/
def natToLE : Nat → Nat → List Nat
  | 0, _ => []
  | k + 1, n => n % 256 :: natToLE k (n / 256)

/-- Value of a little-endian byte string. -/
def leToNat : List Nat → Nat
  | [] => 0
  | b :: bs => b + 256 * leToNat bs

/-- The instruction enum of `src/task4/src/instruction.rs`
(`DepositInstruction`): borsh gives variant `Deposit` tag 0 and `Withdraw`
tag 1, each carrying a `u64` amount. -/
inductive DepositInstruction where
  | deposit (amount : Nat)
  | withdraw (amount : Nat)
deriving DecidableEq

/-- Borsh serialization of `DepositInstruction`: 1-byte variant tag followed
by the 8-byte little-endian amount. -/
def encodeInstruction : DepositInstruction → List Nat
  | .deposit a => 0 :: natToLE 8 a
  | .withdraw a => 1 :: natToLE 8 a

/-- Borsh `DepositInstruction::try_from_slice`: reads the tag byte and the
8-byte little-endian amount, and fails unless the input is consumed exactly
(`try_from_slice` rejects trailing bytes), i.e. unless the input is exactly
9 bytes long with a recognized tag. -/
def decodeInstruction (bs : List Nat) : Option DepositInstruction :=
  match bs with
  | [] => none
  | t :: rest =>
    if rest.length = 8 then
      if t = 0 then some (.deposit (leToNat rest))
      else if t = 1 then some (.withdraw (leToNat rest))
      else none
    else none

/-- Errors the processor can return.  `insufficientFunds`,
`incorrectProgramId` and `invalidInstructionData` are the `DepositError`
variants of `processor.rs` (the spec calls them `InsufficientFunds`,
`WrongOwner` and `DecodeError`); `missingRequiredSignature` is
`ProgramError::MissingRequiredSignature` (spec `MissingSignature`);
`invalidAccountData` is `ProgramError::InvalidAccountData` (spec
`Unauthorized`); `borshFailure` is the `ProgramError` produced when borsh
(de)serialization of the account record fails (spec `CorruptState`);
`notEnoughAccountKeys` is `next_account_info` running out of accounts;
`systemTransferFailed` stands for a failing system-program transfer CPI. -/
inductive ProgramError where
  | insufficientFunds
  | incorrectProgramId
  | invalidInstructionData
  | missingRequiredSignature
  | invalidAccountData
  | borshFailure
  | notEnoughAccountKeys
  | systemTransferFailed
deriving DecidableEq

/-- The slice of Solana's `AccountInfo` the program reads or writes: the
account's public key, whether it signed, its lamport (raw native) balance,
its data buffer and its owning program. -/
structure AccountInfo where
  key : Nat
  is_signer : Bool
  lamports : Nat
  data : List Nat
  owner : Nat
deriving DecidableEq

/-- Borsh `DepositAccount::try_from_slice`: succeeds exactly on a 40-byte
buffer (32-byte owner key, 8-byte little-endian balance); a buffer of any
other length fails (too short: EOF, too long: trailing bytes). -/
def loadAccount (buf : List Nat) : Option (Nat × Nat) :=
  if buf.length = 40 then some (leToNat (buf.take 32), leToNat (buf.drop 32)) else none

/-- Borsh `DepositAccount::serialize` into `&mut account.data`: writes the
40-byte record at the start of the buffer, leaving any remaining bytes in
place; fails (`write_all` on a too-small slice) when the buffer holds fewer
than 40 bytes. -/
def storeAccount (o bal : Nat) (buf : List Nat) : Option (List Nat) :=
  if 40 ≤ buf.length then some (natToLE 32 o ++ natToLE 8 bal ++ buf.drop 40) else none

/-- Owner field stored in an account's data buffer. -/
def storedOwner (s : AccountInfo) : Nat := leToNat (s.data.take 32)

/-- Logical balance field stored in an account's data buffer. -/
def storedBalance (s : AccountInfo) : Nat := leToNat (s.data.drop 32)

/-- The body of `Processor::process_deposit`: namespace (program-ownership)
check on the deposit account, signer check on the funder, system-program
transfer of `amount` lamports from the funder to the deposit account, then
read of the stored record (a zero-length buffer starts a fresh record with
`owner = funder.key, balance = 0`), the unchecked `balance += amount`
(wrapping at `2 ^ 64`), and serialization of the updated record back into the
buffer.  The transfer CPI is external system-program code, modelled from the
spec: it moves exactly `amount` lamports and fails when the funder lacks
`amount` or the credit would overflow `u64`.  On success the returned pair is
(updated funder, updated deposit account); an error reverts everything. -/
def process_deposit (program_id : Nat) (funder acct : AccountInfo) (amount : Nat) :
    Except ProgramError (AccountInfo × AccountInfo) :=
  if acct.owner ≠ program_id then .error .incorrectProgramId
  else if funder.is_signer = false then .error .missingRequiredSignature
  else if funder.lamports < amount then .error .systemTransferFailed
  else if U64MOD ≤ acct.lamports + amount then .error .systemTransferFailed
  else
    let st : Option (Nat × Nat) :=
      if 0 < acct.data.length then loadAccount acct.data else some (funder.key, 0)
    match st with
    | none => .error .borshFailure
    | some (o, b) =>
      match storeAccount o ((b + amount) % U64MOD) acct.data with
      | none => .error .borshFailure
      | some d =>
        .ok ({ funder with lamports := funder.lamports - amount },
             { acct with lamports := acct.lamports + amount, data := d })

/-- The body of `Processor::process_withdraw`: namespace check on the deposit
account, signer check on the caller, borsh load of the stored record,
owner-equality check, logical-balance check, rent-reserve check
(`lamports().checked_sub(min_balance)` then `amount > available`), then the
in-place updates `balance -= amount`, debit of the deposit account and
unchecked credit of the destination (wrapping at `2 ^ 64`), and serialization
of the updated record.  `min_balance` abstracts
`Rent::get()?.minimum_balance`, an opaque host-supplied function of the data
size.  On success the returned pair is (updated deposit account, updated
destination); an error reverts everything. -/
def process_withdraw (program_id : Nat) (min_balance : Nat → Nat)
    (owner_info acct dest : AccountInfo) (amount : Nat) :
    Except ProgramError (AccountInfo × AccountInfo) :=
  if acct.owner ≠ program_id then .error .incorrectProgramId
  else if owner_info.is_signer = false then .error .missingRequiredSignature
  else
    match loadAccount acct.data with
    | none => .error .borshFailure
    | some (o, b) =>
      if o ≠ owner_info.key then .error .invalidAccountData
      else if b < amount then .error .insufficientFunds
      else if acct.lamports < min_balance acct.data.length then .error .insufficientFunds
      else if acct.lamports - min_balance acct.data.length < amount then
        .error .insufficientFunds
      else
        match storeAccount o (b - amount) acct.data with
        | none => .error .borshFailure
        | some d =>
          .ok ({ acct with lamports := acct.lamports - amount, data := d },
               { dest with lamports := (dest.lamports + amount) % U64MOD })

/-- The entry point `Processor::process`: borsh-decodes the instruction bytes
first (failure is `DepositError::InvalidInstructionData`, the spec's
`DecodeError`) and only then dispatches to the handler, which pulls its
accounts off the list with `next_account_info`. -/
def process (program_id : Nat) (min_balance : Nat → Nat)
    (accounts : List AccountInfo) (instruction_data : List Nat) :
    Except ProgramError (List AccountInfo) :=
  match decodeInstruction instruction_data with
  | none => .error .invalidInstructionData
  | some (.deposit amount) =>
    match accounts with
    | funder :: acct :: rest =>
      (process_deposit program_id funder acct amount).map fun p => p.1 :: p.2 :: rest
    | _ => .error .notEnoughAccountKeys
  | some (.withdraw amount) =>
    match accounts with
    | owner_info :: acct :: dest :: rest =>
      (process_withdraw program_id min_balance owner_info acct dest amount).map
        fun p => owner_info :: p.1 :: p.2 :: rest
    | _ => .error .notEnoughAccountKeys

/-- One successful transition of the deposit account: some deposit or
withdraw call on it returns `Except.ok`; the account evolves to the updated
account of the result.  `min_balance` is the host's fixed reserve schedule. -/
inductive Step (program_id : Nat) (min_balance : Nat → Nat) :
    AccountInfo → AccountInfo → Prop where
  | deposit (funder : AccountInfo) (amount : Nat) (acct funder' acct' : AccountInfo)
      (h : process_deposit program_id funder acct amount = .ok (funder', acct')) :
      Step program_id min_balance acct acct'
  | withdraw (owner_info dest : AccountInfo) (amount : Nat) (acct acct' dest' : AccountInfo)
      (h : process_withdraw program_id min_balance owner_info acct dest amount =
        .ok (acct', dest')) :
      Step program_id min_balance acct acct'

/-- The reserve invariant: the account's raw native balance covers the
host-required minimum reserve for its data size plus the stored logical
balance. -/
def ReserveInv (min_balance : Nat → Nat) (s : AccountInfo) : Prop :=
  min_balance s.data.length + storedBalance s ≤ s.lamports

/-- Amount field of an instruction (a `u64` in the source). -/
def instructionAmount : DepositInstruction → Nat
  | .deposit a => a
  | .withdraw a => a

/-- Concrete funder: key 9, a signer, 100 lamports, no data. -/
def w1Funder : AccountInfo := ⟨9, true, 100, [], 0⟩

/-- Concrete program-owned account: owner key 9 and balance 20 stored in its
40-byte record, 50 lamports. -/
def w1Acct : AccountInfo := ⟨2, false, 50, natToLE 32 9 ++ natToLE 8 20, 1⟩

/-- The funder after depositing 5 lamports. -/
def w1FunderAfter : AccountInfo := ⟨9, true, 95, [], 0⟩

/-- The account after a deposit of 5: 55 lamports and stored balance 25. -/
def w1AcctAfter : AccountInfo := ⟨2, false, 55, natToLE 32 9 ++ natToLE 8 25, 1⟩

/-- Concrete withdraw caller matching the stored owner key 7. -/
def cx2Owner : AccountInfo := ⟨7, true, 0, [], 0⟩

/-- Concrete program-owned account with stored owner 7 and balance 5. -/
def cx2Acct : AccountInfo := ⟨2, false, 100, natToLE 32 7 ++ natToLE 8 5, 1⟩

/-- Destination sitting at the largest `u64` lamport value. -/
def cx2Dest : AccountInfo := ⟨3, false, U64MOD - 1, [], 0⟩

/-- Withdraw caller for the happy-path witness. -/
def w2Owner : AccountInfo := ⟨7, true, 0, [], 0⟩

/-- Program-owned account with stored owner 7, balance 5, 100 lamports. -/
def w2Acct : AccountInfo := ⟨2, false, 100, natToLE 32 7 ++ natToLE 8 5, 1⟩

/-- Destination with 10 lamports. -/
def w2Dest : AccountInfo := ⟨3, false, 10, [], 0⟩

/-- Funder for the overflow deposit: a signer with 10 lamports. -/
def cx3Funder : AccountInfo := ⟨9, true, 10, [], 0⟩

/-- Program-owned account whose stored balance is the largest `u64` value. -/
def cx3Acct : AccountInfo := ⟨2, false, 1000, natToLE 32 9 ++ natToLE 8 (U64MOD - 1), 1⟩

/-- Signing caller whose key 8 differs from the stored owner 7. -/
def w4Caller : AccountInfo := ⟨8, true, 0, [], 0⟩

/-- Program-owned account with stored owner 7 and balance 5. -/
def w4Acct : AccountInfo := ⟨2, false, 100, natToLE 32 7 ++ natToLE 8 5, 1⟩

/-- Destination account for the unauthorized withdraw. -/
def w4Dest : AccountInfo := ⟨3, false, 10, [], 0⟩

/-- Funder for the fresh-record deposit: a signer with 100 lamports. -/
def cx5Funder : AccountInfo := ⟨9, true, 100, [], 0⟩

/-- Program-owned account with a zero-length (uninitialized) data buffer. -/
def cx5Acct : AccountInfo := ⟨2, false, 50, [], 1⟩

/-- Funder account for the decode-ordering inputs. -/
def cx6Funder : AccountInfo := ⟨9, true, 100, [], 0⟩

/-- Account owned by program 99, failing the namespace check of program 1. -/
def cx6Acct : AccountInfo := ⟨2, false, 50, [], 99⟩

/-- Deposit account after a successful withdraw of `amount`, given the loaded
owner `o` and balance `b`: lamports debited and the record re-serialized with
the reduced balance. -/
def withdrawAcctAfter (acct : AccountInfo) (o b amount : Nat) : AccountInfo :=
  { acct with
    lamports := acct.lamports - amount,
    data := natToLE 32 o ++ natToLE 8 (b - amount) ++ acct.data.drop 40 }

/-- Withdraw caller for the uninitialized-record witness. -/
def w7Owner : AccountInfo := ⟨7, true, 0, [], 0⟩

/-- Program-owned account with a zero-length (uninitialized) data buffer. -/
def w7Acct : AccountInfo := ⟨2, false, 50, [], 1⟩

/-- Destination account for the uninitialized-record witness. -/
def w7Dest : AccountInfo := ⟨3, false, 10, [], 0⟩

theorem natToLE_length (k n : Nat) : (natToLE k n).length = k := by
  induction k generalizing n with
  | zero => rfl
  | succ k ih => simp [natToLE, ih]

theorem leToNat_natToLE (k n : Nat) : leToNat (natToLE k n) = n % 256 ^ k := by
  induction k generalizing n with
  | zero => simp [natToLE, leToNat, Nat.mod_one]
  | succ k ih =>
    have h256 : 256 ^ (k + 1) = 256 * 256 ^ k := by ring
    rw [natToLE, leToNat, ih, h256, Nat.mod_mul]

theorem pow256_eight : 256 ^ 8 = U64MOD := by norm_num [U64MOD]

theorem take32_append (o : Nat) (l : List Nat) :
    (natToLE 32 o ++ l).take 32 = natToLE 32 o := by
  have h := natToLE_length 32 o
  calc (natToLE 32 o ++ l).take 32
      = (natToLE 32 o ++ l).take (natToLE 32 o).length := by rw [h]
    _ = natToLE 32 o := List.take_left _ _

theorem drop32_append (o : Nat) (l : List Nat) :
    (natToLE 32 o ++ l).drop 32 = l := by
  have h := natToLE_length 32 o
  calc (natToLE 32 o ++ l).drop 32
      = (natToLE 32 o ++ l).drop (natToLE 32 o).length := by rw [h]
    _ = l := List.drop_left _ _

theorem loadAccount_some_length {buf : List Nat} {o b : Nat}
    (h : loadAccount buf = some (o, b)) : buf.length = 40 := by
  by_cases hl : buf.length = 40
  · exact hl
  · simp [loadAccount, hl] at h

theorem loadAccount_some_fields {buf : List Nat} {o b : Nat}
    (h : loadAccount buf = some (o, b)) :
    o = leToNat (buf.take 32) ∧ b = leToNat (buf.drop 32) := by
  have hl := loadAccount_some_length h
  simp [loadAccount, hl] at h
  exact ⟨h.1.symm, h.2.symm⟩

theorem leToNat_drop32_store (o c : Nat) (tail : List Nat) (htail : tail = []) :
    leToNat ((natToLE 32 o ++ natToLE 8 c ++ tail).drop 32) = c % U64MOD := by
  rw [htail, List.append_nil, drop32_append, leToNat_natToLE, pow256_eight]

theorem length_store (o c : Nat) (tail : List Nat) (htail : tail = []) :
    (natToLE 32 o ++ natToLE 8 c ++ tail).length = 40 := by
  simp [htail, natToLE_length]

theorem drop_forty_nil {l : List Nat} (hlen : l.length = 40) : l.drop 40 = [] := by
  apply List.eq_nil_of_length_eq_zero
  simp [hlen]

theorem process_deposit_ok_inv {pid : Nat} {funder acct f' a' : AccountInfo} {amount : Nat}
    (h : process_deposit pid funder acct amount = .ok (f', a')) :
    acct.data.length = 40 ∧
      a' = { acct with
               lamports := acct.lamports + amount,
               data := natToLE 32 (leToNat (acct.data.take 32))
                 ++ natToLE 8 ((leToNat (acct.data.drop 32) + amount) % U64MOD)
                 ++ acct.data.drop 40 } := by
  unfold process_deposit at h
  split at h
  · exact absurd h (by simp)
  split at h
  · exact absurd h (by simp)
  split at h
  · exact absurd h (by simp)
  split at h
  · exact absurd h (by simp)
  by_cases hpos : 0 < acct.data.length
  · simp only [hpos, if_true] at h
    split at h
    · exact absurd h (by simp)
    rename_i o b hload
    have hlen := loadAccount_some_length hload
    obtain ⟨ho, hb⟩ := loadAccount_some_fields hload
    split at h
    · exact absurd h (by simp)
    rename_i d hstore
    rw [storeAccount, if_pos (by omega)] at hstore
    simp only [Option.some.injEq] at hstore
    simp only [Except.ok.injEq, Prod.mk.injEq] at h
    refine ⟨hlen, ?_⟩
    rw [← h.2, ← hstore, ho, hb]
  · simp only [hpos, if_false] at h
    have hlen0 : acct.data.length = 0 := by omega
    split at h
    · exact absurd h (by simp)
    rename_i d hstore
    rw [storeAccount, if_neg (by omega)] at hstore
    exact absurd hstore (by simp)

theorem process_withdraw_ok_inv {pid : Nat} {mb : Nat → Nat}
    {owner_info acct dest a' d' : AccountInfo} {amount : Nat}
    (h : process_withdraw pid mb owner_info acct dest amount = .ok (a', d')) :
    acct.data.length = 40 ∧
      amount ≤ leToNat (acct.data.drop 32) ∧
      mb acct.data.length + amount ≤ acct.lamports ∧
      a' = { acct with
               lamports := acct.lamports - amount,
               data := natToLE 32 (leToNat (acct.data.take 32))
                 ++ natToLE 8 (leToNat (acct.data.drop 32) - amount)
                 ++ acct.data.drop 40 } := by
  unfold process_withdraw at h
  split at h
  · exact absurd h (by simp)
  split at h
  · exact absurd h (by simp)
  split at h
  · exact absurd h (by simp)
  rename_i o b hload
  have hlen := loadAccount_some_length hload
  obtain ⟨ho, hb⟩ := loadAccount_some_fields hload
  split at h
  · exact absurd h (by simp)
  split at h
  · exact absurd h (by simp)
  rename_i hbal
  split at h
  · exact absurd h (by simp)
  rename_i hmin
  split at h
  · exact absurd h (by simp)
  rename_i havail
  split at h
  · exact absurd h (by simp)
  rename_i d hstore
  rw [storeAccount, if_pos (by omega)] at hstore
  simp only [Option.some.injEq] at hstore
  simp only [Except.ok.injEq, Prod.mk.injEq] at h
  refine ⟨hlen, ?_, ?_, ?_⟩
  · rw [← hb]; omega
  · omega
  · rw [← h.1, ← hstore, ho, hb]

theorem leToNat_take32_store (o c : Nat) (tail : List Nat) :
    leToNat ((natToLE 32 o ++ natToLE 8 c ++ tail).take 32) = o % 2 ^ 256 := by
  rw [List.append_assoc, take32_append, leToNat_natToLE]
  norm_num

theorem step_preserves_ReserveInv {pid : Nat} {mb : Nat → Nat} {s s' : AccountInfo}
    (hs : Step pid mb s s') (hinv : ReserveInv mb s) : ReserveInv mb s' := by
  cases hs with
  | deposit funder amount acct f' a' h =>
    obtain ⟨hlen, ha⟩ := process_deposit_ok_inv h
    have hcle : (leToNat (s.data.drop 32) + amount) % U64MOD
        ≤ leToNat (s.data.drop 32) + amount := Nat.mod_le _ _
    have hmod : (leToNat (s.data.drop 32) + amount) % U64MOD % U64MOD
        ≤ leToNat (s.data.drop 32) + amount :=
      le_trans (Nat.mod_le _ _) hcle
    unfold ReserveInv at hinv ⊢
    rw [ha]
    simp only [storedBalance, hlen] at hinv
    simp only [storedBalance, leToNat_drop32_store _ _ _ (drop_forty_nil hlen),
      length_store _ _ _ (drop_forty_nil hlen), hlen]
    omega
  | withdraw owner_info dest amount acct a' d' h =>
    obtain ⟨hlen, hble, hres, ha⟩ := process_withdraw_ok_inv h
    have hcle : (leToNat (s.data.drop 32) - amount) % U64MOD
        ≤ leToNat (s.data.drop 32) - amount := Nat.mod_le _ _
    unfold ReserveInv at hinv ⊢
    rw [ha]
    simp only [storedBalance, hlen] at hinv
    simp only [storedBalance, leToNat_drop32_store _ _ _ (drop_forty_nil hlen),
      length_store _ _ _ (drop_forty_nil hlen), hlen]
    omega

/-- C1: from any account whose raw native balance satisfies the reserve
requirement `min_balance(data_size) + stored balance ≤ lamports`, every state
reachable by successful Deposit and Withdraw transitions still satisfies it:
the raw native balance is at least the minimum reserve for the data size plus
the stored logical balance. -/
theorem reserve_invariant_reachable (pid : Nat) (mb : Nat → Nat) (s s' : AccountInfo)
    (h0 : ReserveInv mb s)
    (hreach : Relation.ReflTransGen (Step pid mb) s s') : ReserveInv mb s' := by
  induction hreach with
  | refl => exact h0
  | tail hab hbc ih => exact step_preserves_ReserveInv hbc ih

/-- Witness for C1: a concrete reserve-compliant account, and the invariant
after a successful deposit of 5 reached from it. -/
theorem reserve_invariant_reachable_witness :
    ReserveInv (fun _ => 10) w1Acct ∧ ReserveInv (fun _ => 10) w1AcctAfter := by
  constructor
  · unfold ReserveInv
    decide
  · exact reserve_invariant_reachable 1 (fun _ => 10) w1Acct w1AcctAfter
      (by unfold ReserveInv; decide)
      (Relation.ReflTransGen.single
        (Step.deposit w1Funder 5 w1Acct w1FunderAfter w1AcctAfter (by rfl)))

/-- C4: a Withdraw on an initialized account by a signing caller whose key
differs from the stored owner fails with `InvalidAccountData` (the spec's
`Unauthorized`); the error return means the host discards every write, so the
account state is unchanged. -/
theorem withdraw_unauthorized (pid : Nat) (mb : Nat → Nat)
    (owner_info acct dest : AccountInfo) (amount o b : Nat)
    (hns : acct.owner = pid) (hsig : owner_info.is_signer = true)
    (hload : loadAccount acct.data = some (o, b)) (hneq : o ≠ owner_info.key) :
    process_withdraw pid mb owner_info acct dest amount = .error .invalidAccountData := by
  rw [process_withdraw.eq_def, if_neg (by simp [hns]), if_neg (by simp [hsig]), hload]
  simp only []
  rw [if_pos hneq]

/-- Witness for C4: caller key 8 against stored owner 7. -/
theorem withdraw_unauthorized_witness :
    loadAccount w4Acct.data = some (7, 5) ∧ (7 : Nat) ≠ w4Caller.key ∧
    process_withdraw 1 (fun _ => 10) w4Caller w4Acct w4Dest 3 =
      .error .invalidAccountData :=
  ⟨by rfl, by decide,
    withdraw_unauthorized 1 (fun _ => 10) w4Caller w4Acct w4Dest 3 7 5 rfl rfl (by rfl)
      (by decide)⟩

/-- C7: a Withdraw on a record with a zero-length data buffer that passes the
namespace and signer checks fails when borsh-deserializing the record (the
spec's `CorruptState`), before any mutation; the error return means nothing
is written. -/
theorem withdraw_uninitialized (pid : Nat) (mb : Nat → Nat)
    (owner_info acct dest : AccountInfo) (amount : Nat)
    (hns : acct.owner = pid) (hsig : owner_info.is_signer = true)
    (hdata : acct.data = []) :
    process_withdraw pid mb owner_info acct dest amount = .error .borshFailure := by
  rw [process_withdraw.eq_def, if_neg (by simp [hns]), if_neg (by simp [hsig])]
  have hload : loadAccount acct.data = none := by simp [loadAccount, hdata]
  rw [hload]

/-- Witness for C7: a concrete zero-length record. -/
theorem withdraw_uninitialized_witness :
    w7Acct.data = [] ∧ w7Acct.owner = 1 ∧ w7Owner.is_signer = true ∧
    process_withdraw 1 (fun _ => 10) w7Owner w7Acct w7Dest 3 = .error .borshFailure :=
  ⟨rfl, rfl, rfl,
    withdraw_uninitialized 1 (fun _ => 10) w7Owner w7Acct w7Dest 3 rfl rfl rfl⟩

/-- C2 (amended): for an initialized account that passes the namespace,
signer and owner checks — with the amendment that the destination's lamports
plus `amount` stay within `u64`, since the unchecked credit wraps modulo
`2 ^ 64` otherwise — if `amount ≤ balance` and
`min_balance(data_size) + amount ≤ lamports` the withdraw succeeds, the
stored balance and the account lamports each decrease by exactly `amount`,
the destination lamports increase by exactly `amount` and the stored owner is
unchanged; if `amount > balance` or the reserve would be breached it fails
with `InsufficientFunds` (an error reverts all writes). -/
theorem withdraw_functional (pid : Nat) (mb : Nat → Nat)
    (owner_info acct dest : AccountInfo) (amount o b : Nat)
    (hns : acct.owner = pid) (hsig : owner_info.is_signer = true)
    (hload : loadAccount acct.data = some (o, b)) (hown : o = owner_info.key)
    (hb64 : b < U64MOD) (ho256 : o < 2 ^ 256) (hdest : dest.lamports + amount < U64MOD) :
    storedBalance acct = b ∧
    ((amount ≤ b ∧ mb acct.data.length + amount ≤ acct.lamports) →
      process_withdraw pid mb owner_info acct dest amount =
        .ok (withdrawAcctAfter acct o b amount,
             { dest with lamports := dest.lamports + amount }) ∧
      storedBalance (withdrawAcctAfter acct o b amount) = b - amount ∧
      storedOwner (withdrawAcctAfter acct o b amount) = o ∧
      (withdrawAcctAfter acct o b amount).lamports = acct.lamports - amount ∧
      (withdrawAcctAfter acct o b amount).data.length = acct.data.length) ∧
    ((b < amount ∨ acct.lamports < mb acct.data.length + amount) →
      process_withdraw pid mb owner_info acct dest amount = .error .insufficientFunds) := by
  have hlen := loadAccount_some_length hload
  have hdrop := drop_forty_nil hlen
  refine ⟨(loadAccount_some_fields hload).2.symm, ?_, ?_⟩
  · rintro ⟨ha, hr⟩
    have hbal : ¬ b < amount := by omega
    have hmb : ¬ acct.lamports < mb acct.data.length := by omega
    have hav : ¬ acct.lamports - mb acct.data.length < amount := by omega
    refine ⟨?_, ?_, ?_, rfl, ?_⟩
    · rw [process_withdraw.eq_def, if_neg (by simp [hns]), if_neg (by simp [hsig]), hload]
      simp only []
      rw [if_neg (by simp [hown]), if_neg hbal, if_neg hmb, if_neg hav]
      rw [storeAccount, if_pos (by omega)]
      simp only [withdrawAcctAfter]
      rw [Nat.mod_eq_of_lt hdest]
    · rw [withdrawAcctAfter]
      simp only [storedBalance]
      rw [leToNat_drop32_store _ _ _ hdrop]
      exact Nat.mod_eq_of_lt (by omega)
    · rw [withdrawAcctAfter]
      simp only [storedOwner]
      rw [leToNat_take32_store]
      exact Nat.mod_eq_of_lt ho256
    · rw [withdrawAcctAfter]
      simp only [length_store _ _ _ hdrop, hlen]
  · intro h
    rw [process_withdraw.eq_def, if_neg (by simp [hns]), if_neg (by simp [hsig]), hload]
    simp only []
    rw [if_neg (by simp [hown])]
    by_cases hbal : b < amount
    · rw [if_pos hbal]
    · have h' : acct.lamports < mb acct.data.length + amount := by
        rcases h with h | h
        · omega
        · exact h
      rw [if_neg hbal]
      by_cases hmb : acct.lamports < mb acct.data.length
      · rw [if_pos hmb]
      · rw [if_neg hmb, if_pos (by omega)]

/-- Counterexample for C2 as stated: with the destination at the maximal
`u64` lamport value, a successful withdraw of 1 leaves the destination with 0
lamports — the unchecked `+=` wraps, so the destination does not increase by
exactly the amount. -/
theorem withdraw_functional_counterexample :
    cx2Dest.lamports = U64MOD - 1 ∧
    (process_withdraw 1 (fun _ => 10) cx2Owner cx2Acct cx2Dest 1).toOption.map
      (fun p => p.2.lamports) = some 0 ∧
    (0 : Nat) ≠ cx2Dest.lamports + 1 := by
  refine ⟨rfl, by rfl, by decide⟩

/-- Witness for C2: a concrete in-range withdraw of 2 from balance 5. -/
theorem withdraw_functional_witness :
    loadAccount w2Acct.data = some (7, 5) ∧ (2 ≤ 5 ∧ (10 : Nat) + 2 ≤ w2Acct.lamports) ∧
    process_withdraw 1 (fun _ => 10) w2Owner w2Acct w2Dest 2 =
      .ok (withdrawAcctAfter w2Acct 7 5 2,
           { w2Dest with lamports := w2Dest.lamports + 2 }) :=
  ⟨by rfl, ⟨by decide, by decide⟩,
    ((withdraw_functional 1 (fun _ => 10) w2Owner w2Acct w2Dest 2 7 5 rfl rfl (by rfl) rfl
        (by decide) (by decide) (by decide)).2.1 ⟨by decide, by decide⟩).1⟩

/-- C3 evaluated at the failing input: depositing 1 into an account whose
stored balance is `u64::MAX` succeeds — the unchecked `balance += amount`
wraps the stored balance to 0 while the lamports still increase by 1 —
instead of failing with `ArithmeticOverflow` as the spec requires (no such
check or error exists in the code). -/
theorem deposit_overflow_wraps :
    storedBalance cx3Acct = U64MOD - 1 ∧
    (process_deposit 1 cx3Funder cx3Acct 1).toOption.map
      (fun p => (storedBalance p.2, p.2.lamports)) = some (0, 1001) := by
  exact ⟨by rfl, by rfl⟩

/-- C5 evaluated at the failing input: a deposit of 5 into a record with a
zero-length data buffer does not initialize the record — serializing the
40-byte `DepositAccount` into the empty buffer fails, so the whole
instruction errors and no `Initialized` state is produced. -/
theorem deposit_uninitialized_fails :
    cx5Acct.data = [] ∧ cx5Funder.is_signer = true ∧ cx5Acct.owner = 1 ∧
    5 ≤ cx5Funder.lamports ∧
    process_deposit 1 cx5Funder cx5Acct 5 = .error .borshFailure := by
  exact ⟨rfl, rfl, rfl, by decide, by rfl⟩

/-- C6 (amended): `Processor::process` decodes the instruction bytes first
and checks the namespace (program ownership) of the storage record only
inside the per-instruction handler; hence when the instruction bytes fail to
decode the error is `InvalidInstructionData` (the spec's `DecodeError`) even
if the record also fails the namespace check, and when decoding succeeds and
the record fails the namespace check the error is `IncorrectProgramId` (the
spec's `WrongOwner`). -/
theorem decode_before_namespace :
    (∀ (pid : Nat) (mb : Nat → Nat) (accounts : List AccountInfo) (bs : List Nat),
      decodeInstruction bs = none →
      process pid mb accounts bs = .error .invalidInstructionData) ∧
    (∀ (pid : Nat) (mb : Nat → Nat) (funder acct : AccountInfo) (rest : List AccountInfo)
      (amount : Nat) (bs : List Nat),
      decodeInstruction bs = some (.deposit amount) → acct.owner ≠ pid →
      process pid mb (funder :: acct :: rest) bs = .error .incorrectProgramId) ∧
    (∀ (pid : Nat) (mb : Nat → Nat) (owner_info acct dest : AccountInfo)
      (rest : List AccountInfo) (amount : Nat) (bs : List Nat),
      decodeInstruction bs = some (.withdraw amount) → acct.owner ≠ pid →
      process pid mb (owner_info :: acct :: dest :: rest) bs =
        .error .incorrectProgramId) := by
  refine ⟨?_, ?_, ?_⟩
  · intro pid mb accounts bs h
    simp [process, h]
  · intro pid mb funder acct rest amount bs hdec hown
    rw [process.eq_def, hdec]
    simp only []
    rw [process_deposit.eq_def, if_pos hown]
    rfl
  · intro pid mb owner_info acct dest rest amount bs hdec hown
    rw [process.eq_def, hdec]
    simp only []
    rw [process_withdraw.eq_def, if_pos hown]
    rfl

/-- Counterexample for C6 as stated: empty instruction bytes (which fail to
decode) against a record owned by program 99 instead of program 1 (which
fails the namespace check) return `InvalidInstructionData`, not
`IncorrectProgramId` — decoding runs before the namespace check. -/
theorem decode_before_namespace_counterexample :
    cx6Acct.owner ≠ 1 ∧ decodeInstruction [] = none ∧
    process 1 (fun _ => 10) [cx6Funder, cx6Acct] [] = .error .invalidInstructionData ∧
    ProgramError.invalidInstructionData ≠ ProgramError.incorrectProgramId := by
  exact ⟨by decide, rfl, by rfl, by decide⟩

/-- Witness for C6 (amended): both branches at concrete inputs — undecodable
bytes give `InvalidInstructionData`, and a decodable deposit against a
wrong-namespace record gives `IncorrectProgramId`. -/
theorem decode_before_namespace_witness :
    decodeInstruction [7] = none ∧
    process 1 (fun _ => 10) [cx6Funder, cx6Acct] [7] = .error .invalidInstructionData ∧
    decodeInstruction (0 :: natToLE 8 3) = some (.deposit 3) ∧
    process 1 (fun _ => 10) [cx6Funder, cx6Acct] (0 :: natToLE 8 3) =
      .error .incorrectProgramId :=
  ⟨by rfl,
   (decode_before_namespace.1 1 (fun _ => 10) [cx6Funder, cx6Acct] [7] (by rfl)),
   by rfl,
   (decode_before_namespace.2.1 1 (fun _ => 10) cx6Funder cx6Acct [] 3 (0 :: natToLE 8 3)
      (by rfl) (by decide))⟩

/-- C8: instruction decoding reads a 1-byte tag followed by an 8-byte
little-endian amount — on any 9-byte input tag 0 gives `Deposit`, tag 1 gives
`Withdraw`, any other tag fails; any input shorter than 9 bytes fails; and a
decode failure surfaces from the processor as `InvalidInstructionData` (the
spec's `DecodeError`). -/
theorem instruction_wire_format :
    (∀ (t : Nat) (rest : List Nat), rest.length = 8 →
      decodeInstruction (t :: rest) =
        if t = 0 then some (.deposit (leToNat rest))
        else if t = 1 then some (.withdraw (leToNat rest))
        else none) ∧
    (∀ bs : List Nat, bs.length < 9 → decodeInstruction bs = none) ∧
    (∀ (pid : Nat) (mb : Nat → Nat) (accounts : List AccountInfo) (bs : List Nat),
      decodeInstruction bs = none →
      process pid mb accounts bs = .error .invalidInstructionData) := by
  refine ⟨?_, ?_, ?_⟩
  · intro t rest h
    simp [decodeInstruction, h]
  · intro bs h
    cases bs with
    | nil => rfl
    | cons t rest =>
      have hne : rest.length ≠ 8 := by
        simp only [List.length_cons] at h
        omega
      simp [decodeInstruction, hne]
  · intro pid mb accounts bs h
    simp [process, h]

/-- Witness for C8: tag 1 with little-endian payload 2 decodes to
`Withdraw 2`, and a 3-byte input fails to decode. -/
theorem instruction_wire_format_witness :
    ([2, 0, 0, 0, 0, 0, 0, 0] : List Nat).length = 8 ∧
    decodeInstruction (1 :: [2, 0, 0, 0, 0, 0, 0, 0]) = some (.withdraw 2) ∧
    ([9, 9, 9] : List Nat).length < 9 ∧ decodeInstruction [9, 9, 9] = none := by
  refine ⟨rfl, ?_, by decide, instruction_wire_format.2.1 [9, 9, 9] (by decide)⟩
  rw [instruction_wire_format.1 1 [2, 0, 0, 0, 0, 0, 0, 0] rfl]
  decide

/-- C9: decoding inverts encoding — for every constructible instruction (its
amount a `u64` value) the encoded byte string decodes back to it. -/
theorem decode_encode_roundtrip (x : DepositInstruction)
    (hx : instructionAmount x < U64MOD) :
    decodeInstruction (encodeInstruction x) = some x := by
  have hval : ∀ a : Nat, a < U64MOD → leToNat (natToLE 8 a) = a := fun a ha => by
    rw [leToNat_natToLE, pow256_eight, Nat.mod_eq_of_lt ha]
  cases x with
  | deposit a =>
    simp only [instructionAmount] at hx
    simp [encodeInstruction, decodeInstruction, natToLE_length, hval a hx]
  | withdraw a =>
    simp only [instructionAmount] at hx
    simp [encodeInstruction, decodeInstruction, natToLE_length, hval a hx]

/-- Witness for C9: round trip at `Deposit 7`. -/
theorem decode_encode_roundtrip_witness :
    instructionAmount (.deposit 7) < U64MOD ∧
    decodeInstruction (encodeInstruction (.deposit 7)) = some (.deposit 7) :=
  ⟨by decide, decode_encode_roundtrip (.deposit 7) (by decide)⟩

/-- C10: decoding is strict about length in both directions — appending any
nonempty suffix to a valid encoding makes decoding fail, and every input that
decodes successfully is exactly 9 bytes long. -/
theorem decode_exact_length :
    (∀ (x : DepositInstruction) (extra : List Nat), extra ≠ [] →
      decodeInstruction (encodeInstruction x ++ extra) = none) ∧
    (∀ bs : List Nat, (decodeInstruction bs).isSome = true → bs.length = 9) := by
  constructor
  · intro x extra hx
    have hne : ∀ a : Nat, (natToLE 8 a ++ extra).length ≠ 8 := by
      intro a
      rw [List.length_append, natToLE_length]
      intro hc
      exact hx (List.eq_nil_of_length_eq_zero (by omega))
    cases x with
    | deposit a =>
      show decodeInstruction ((0 :: natToLE 8 a) ++ extra) = none
      rw [List.cons_append, decodeInstruction.eq_def]
      simp only []
      rw [if_neg (hne a)]
    | withdraw a =>
      show decodeInstruction ((1 :: natToLE 8 a) ++ extra) = none
      rw [List.cons_append, decodeInstruction.eq_def]
      simp only []
      rw [if_neg (hne a)]
  · intro bs h
    cases bs with
    | nil => simp [decodeInstruction] at h
    | cons t rest =>
      by_cases hl : rest.length = 8
      · simp [hl]
      · simp [decodeInstruction, hl] at h

/-- Witness for C10: `Deposit 3` with one trailing byte fails to decode, and
the successful decode of a 9-byte input certifies its length. -/
theorem decode_exact_length_witness :
    ([5] : List Nat) ≠ [] ∧
    decodeInstruction (encodeInstruction (.deposit 3) ++ [5]) = none ∧
    (decodeInstruction (0 :: natToLE 8 3)).isSome = true ∧
    (0 :: natToLE 8 3).length = 9 :=
  ⟨by decide, decode_exact_length.1 (.deposit 3) [5] (by decide), by rfl,
    decode_exact_length.2 (0 :: natToLE 8 3) (by rfl)⟩

end Task4
